import Mathlib

/-!
Verification of the commitment-tracking engine of the personal-assistant
repository: the persistence and migration layer (storage.ts), the duration
parser (duration.ts), the session ledger (sessions.ts), and the completion
engine and skill CRUD operations that live in App.tsx.

Untyped JSON-shaped data (everything that crosses the persistence boundary)
is modelled by `JsValue`, a shallow embedding of JavaScript values as they
occur after `JSON.parse`. The typed in-memory model (skills, sessions,
schedule blocks) is embedded as Lean structures; JavaScript numbers are
modelled as exact rationals where the code distinguishes integer from
non-integer values, and as integers where the code guarantees integrality.
-/

/-! ## JavaScript value model -/

/-- A JavaScript value as produced by `JSON.parse` (plus `undefined`,
which property access on a missing key yields). -/
inductive JsValue where
  | undefined
  | null
  | bool (b : Bool)
  | num (n : Rat)
  | str (s : String)
  | arr (elems : List JsValue)
  | obj (fields : List (String × JsValue))

/-- JavaScript truthiness: `undefined`, `null`, `false`, `0` and `""` are
falsy; every array and object is truthy. -/
def jsTruthy : JsValue → Bool
  | .undefined => false
  | .null => false
  | .bool b => b
  | .num n => decide (n ≠ 0)
  | .str s => decide (s ≠ "")
  | .arr _ => true
  | .obj _ => true

/-- First-match lookup of a key in an object's field list, yielding
`undefined` when the key is absent. -/
def jsLookup (fields : List (String × JsValue)) (k : String) : JsValue :=
  match fields.lookup k with
  | some v => v
  | none => .undefined

/-- Property access `v[k]`: fields of objects, `undefined` otherwise
(the modelled code only reads properties off values it has checked to be
truthy, so the `null`/`undefined` cases are never reached there). -/
def getField (v : JsValue) (k : String) : JsValue :=
  match v with
  | .obj fields => jsLookup fields k
  | _ => .undefined

/-- The check `typeof v === "string"`. -/
def isString : JsValue → Bool
  | .str _ => true
  | _ => false

/-- The check `Array.isArray(v)`. -/
def isArr : JsValue → Bool
  | .arr _ => true
  | _ => false

/-- The strict-equality check `v === 1` against the number literal `1`. -/
def isVersionOne : JsValue → Bool
  | .num n => decide (n = 1)
  | _ => false

/-- Decimal digit character for `d < 10`. -/
def digitChar (d : Nat) : Char := Char.ofNat (48 + d)

/-- Decimal rendering of a natural number, digit characters most
significant first (the key strings JavaScript uses for array indices). -/
def natChars (n : Nat) : List Char :=
  if _h : n < 10 then [digitChar n]
  else natChars (n / 10) ++ [digitChar (n % 10)]
decreasing_by exact Nat.div_lt_self (by omega) (by omega)

/-- Array-index key string of an array position. -/
def idxKey (n : Nat) : String := ⟨natChars n⟩

/-- Lexicographic "at most" on character lists, comparing code points
(JavaScript's string relational operators on the code points involved
here). -/
def charsLe : List Char → List Char → Bool
  | [], _ => true
  | _ :: _, [] => false
  | a :: as, b :: bs =>
      if a.toNat < b.toNat then true
      else if a.toNat = b.toNat then charsLe as bs
      else false

/-- The JavaScript string comparison `a <= b`. -/
def strLe (a b : String) : Bool := charsLe a.toList b.toList

/-! ## Persistence and migration layer (storage.ts) -/

/-- The default payload from state.ts: empty skills, sessions and
overrides, in this field order. -/
def defaultPayloadJs : JsValue :=
  .obj [("skills", .arr []), ("sessions", .arr []), ("overrides", .arr [])]

/-- The three payload fields that normalization forces to arrays. -/
def payloadKeys : List String := ["skills", "sessions", "overrides"]

/-- The coercion `Array.isArray(v) ? v : []`. -/
def forceArr (v : JsValue) : JsValue :=
  match v with
  | .arr elems => .arr elems
  | _ => .arr []

/-- Object spread of a JavaScript value over the default payload followed
by the three explicit field overrides, exactly as in
`{...base, ...p, skills: ..., sessions: ..., overrides: ...}`:
the base keys `skills`, `sessions`, `overrides` come first (updated in
place), and the remaining own enumerable entries of `p` follow in order.
Spreading an array contributes its elements under their decimal index
keys. Falsy values and truthy non-objects short-circuit to the default
payload via `if (!payload || typeof payload !== "object") return base`. -/
def normalizePayload (p : JsValue) : JsValue :=
  match p with
  | .obj fields =>
      .obj (("skills", forceArr (jsLookup fields "skills"))
        :: ("sessions", forceArr (jsLookup fields "sessions"))
        :: ("overrides", forceArr (jsLookup fields "overrides"))
        :: fields.filter (fun kv => !(payloadKeys.contains kv.1)))
  | .arr elems =>
      .obj (("skills", .arr []) :: ("sessions", .arr []) :: ("overrides", .arr [])
        :: elems.enum.map (fun iv => (idxKey iv.1, iv.2)))
  | _ => defaultPayloadJs

/-- The persisted snapshot: schema version literal, freshness timestamp,
payload. -/
structure AppData where
  version : Nat
  updatedAtIso : String
  payload : JsValue

/-- The string value of a JavaScript value when it is a string, else a
supplied fallback (the ternary `typeof x === "string" ? x : nowIso()`). -/
def strOrElse (v : JsValue) (fallback : String) : String :=
  match v with
  | .str s => s
  | _ => fallback

/-- The validity check shared by `loadAppData` and `importBackup`:
`parsed && parsed.version === 1 && typeof parsed.updatedAtIso === "string"`. -/
def isValidSnapshotDoc (parsed : JsValue) : Bool :=
  jsTruthy parsed && isVersionOne (getField parsed "version")
    && isString (getField parsed "updatedAtIso")

/-- Load from the store. The raw slot is `none` when the key is absent,
`some none` when the stored text does not parse as JSON, and
`some (some v)` when it parses to `v`. `now` is the current time's ISO
rendering (`nowIso()`). -/
def loadAppData (now : String) (raw : Option (Option JsValue)) : AppData :=
  match raw with
  | none => ⟨1, now, defaultPayloadJs⟩
  | some none => ⟨1, now, defaultPayloadJs⟩
  | some (some parsed) =>
      if isValidSnapshotDoc parsed then
        ⟨1, strOrElse (getField parsed "updatedAtIso") now,
          normalizePayload (getField parsed "payload")⟩
      else ⟨1, now, defaultPayloadJs⟩

/-- Save: stamp with the current time and normalize the payload; the
returned value is what gets written to the store and handed back. -/
def saveAppData (now : String) (data : AppData) : AppData :=
  ⟨1, now, normalizePayload data.payload⟩

/-- Import an externally supplied document (`doc` is the result of
`JSON.parse` on the file's text): validate, then normalize. -/
def importBackup (now : String) (doc : JsValue) : Except String AppData :=
  if isValidSnapshotDoc doc then
    .ok ⟨1, strOrElse (getField doc "updatedAtIso") now,
      normalizePayload (getField doc "payload")⟩
  else .error "Invalid backup file format (expected version 1)."

/-- The import handler `onPickImportFile` of App.tsx: on success the
imported snapshot is committed (persisted via `saveAppData` and adopted);
on failure the error message is surfaced and the current snapshot is left
untouched. -/
def onPickImportFile (app : AppData) (now : String) (doc : JsValue) :
    AppData × Option String :=
  match importBackup now doc with
  | .ok imported => (saveAppData now imported, none)
  | .error msg => (app, some msg)

/-- Modelled from the spec: "a recognizable time string" — the repository
keeps its timestamps as `new Date().toISOString()` output, so a time
string is recognizable when it carries an ISO-8601 `YYYY-MM-DD` date
prefix. No function of the source computes this; it only names the
validation the spec describes for `importBackup`. -/
def isRecognizableTimeString (s : String) : Bool :=
  match s.toList with
  | y1 :: y2 :: y3 :: y4 :: '-' :: m1 :: m2 :: '-' :: d1 :: d2 :: _ =>
      y1.isDigit && y2.isDigit && y3.isDigit && y4.isDigit
        && m1.isDigit && m2.isDigit && d1.isDigit && d2.isDigit
  | _ => false

/-! ## Duration parser (duration.ts) -/

/-- Result of parsing a duration string: a whole number of minutes or a
structured failure message. -/
inductive DurationParseResult where
  | ok (minutes : Nat)
  | fail (message : String)
deriving DecidableEq

/-- The value `parseInt(s, 10)` on a digit string, as an exact natural. -/
def natOfDigits (l : List Char) : Nat :=
  l.foldl (fun n c => n * 10 + (c.toNat - 48)) 0

/-- Rational addition written out on numerators and denominators (equal
to `Rat.add`, but kernel-reducible so that concrete runs of the engine
can be checked by `decide`). -/
def ratAdd (a b : Rat) : Rat :=
  mkRat (a.num * b.den + b.num * a.den) (a.den * b.den)

/-- Sum of a list of rationals, folded with `ratAdd`. -/
def ratSum (l : List Rat) : Rat := l.foldr ratAdd 0

/-- Multiplication of a rational by an integer, written out on the
numerator (equal to `q * z`, but kernel-reducible). -/
def ratMulInt (q : Rat) (z : Int) : Rat := mkRat (q.num * z) q.den

/-- Floor of a rational: floor-division of the numerator by the
denominator. -/
def ratFloor (q : Rat) : Int := Int.fdiv q.num q.den

/-- The rational value of an integer (kernel-reducible form of the
coercion of an integer to a rational). -/
def ratOfInt (z : Int) : Rat := mkRat z 1

/-- Exact value of the decimal literal `<ds>.<fs>` (``Number("12.5")``):
the fraction with the concatenated digits over the scale of the
fractional part. -/
def ratOfDecimal (ds fs : List Char) : Rat :=
  mkRat (natOfDigits ds * 10 ^ fs.length + natOfDigits fs) (10 ^ fs.length)

/-- JavaScript `Math.round` on a (non-negative, here) number: round half
toward positive infinity, i.e. the floor of `q + 1/2`. -/
def jsRound (q : Rat) : Int := ratFloor (ratAdd q (mkRat 1 2))

/-- Trim surrounding whitespace from a character list (`String.prototype.trim`). -/
def trimChars (l : List Char) : List Char :=
  ((l.dropWhile Char.isWhitespace).reverse.dropWhile Char.isWhitespace).reverse

/-- The unit alternatives of the minutes pattern `(m|min|mins|minute|minutes)`. -/
def minuteUnits : List (List Char) :=
  [['m'], ['m','i','n'], ['m','i','n','s'],
   ['m','i','n','u','t','e'], ['m','i','n','u','t','e','s']]

/-- The unit alternatives of the hours pattern `(h|hr|hrs|hour|hours)`. -/
def hourUnits : List (List Char) :=
  [['h'], ['h','r'], ['h','r','s'], ['h','o','u','r'], ['h','o','u','r','s']]

/-- Full-anchored match of `^(\d+)\s*(m|min|mins|minute|minutes)$`,
returning the integer minute count. -/
def matchMin (raw : List Char) : Option Nat :=
  let ds := raw.takeWhile Char.isDigit
  let rest := raw.dropWhile Char.isDigit
  if ds.isEmpty then none
  else if minuteUnits.contains (rest.dropWhile Char.isWhitespace) then
    some (natOfDigits ds)
  else none

/-- Full-anchored match of `^(\d+(\.\d+)?)\s*(h|hr|hrs|hour|hours)$`,
returning the (possibly fractional) hour count as an exact rational. -/
def matchHr (raw : List Char) : Option Rat :=
  let ds := raw.takeWhile Char.isDigit
  let rest := raw.dropWhile Char.isDigit
  if ds.isEmpty then none
  else
    match rest with
    | '.' :: rest1 =>
        let fs := rest1.takeWhile Char.isDigit
        let rest2 := rest1.dropWhile Char.isDigit
        if fs.isEmpty then none
        else if hourUnits.contains (rest2.dropWhile Char.isWhitespace) then
          some (ratOfDecimal ds fs)
        else none
    | _ =>
        if hourUnits.contains (rest.dropWhile Char.isWhitespace) then
          some (natOfDigits ds : Rat)
        else none

/-- The rule chain of `parseDurationToMinutes` on the already trimmed and
lowercased text, in the source's priority order: required check, pure
digit string, minutes pattern, hours pattern, catch-all failure. -/
def parseDurCore (raw : List Char) : DurationParseResult :=
  if raw.isEmpty then .fail "Duration is required."
  else if raw.all Char.isDigit then
    let minutes := natOfDigits raw
    if minutes = 0 then .fail "Minutes must be > 0." else .ok minutes
  else
    match matchMin raw with
    | some minutes =>
        if minutes = 0 then .fail "Minutes must be > 0." else .ok minutes
    | none =>
        match matchHr raw with
        | some hours =>
            if hours ≤ 0 then .fail "Hours must be > 0."
            else
              let minutes := jsRound (ratMulInt hours 60)
              if minutes ≤ 0 then .fail "Duration too small."
              else .ok minutes.toNat
        | none =>
            .fail "Invalid duration. Examples: 30, 30min, 45m, 1hr, 0.5hr. Decimals allowed only for hours."

/-- The duration parser: trim surrounding whitespace, lowercase, then run
the rule chain. -/
def parseDurationToMinutes (input : String) : DurationParseResult :=
  parseDurCore ((trimChars input.toList).map Char.toLower)

/-! ## Typed data model (model.ts) -/

/-- Priority rank 1 (highest) to 4 (lowest). -/
inductive Priority where
  | p1
  | p2
  | p3
  | p4
deriving DecidableEq

/-- Numeric value of a priority rank. -/
def Priority.toNat : Priority → Nat
  | .p1 => 1
  | .p2 => 2
  | .p3 => 3
  | .p4 => 4

/-- One planned interval of a weekday's recurring plan. `minutes` is a
JavaScript number, modelled exactly as a rational so that the engine's
`Number.isInteger` guard is observable. -/
structure ScheduleBlock where
  id : String
  startTime : String
  minutes : Rat
deriving DecidableEq

/-- The seven weekdays. -/
inductive Weekday where
  | mon
  | tue
  | wed
  | thu
  | fri
  | sat
  | sun
deriving DecidableEq

/-- A week's recurring plan: every weekday key present. -/
structure WeeklySchedule where
  mon : List ScheduleBlock
  tue : List ScheduleBlock
  wed : List ScheduleBlock
  thu : List ScheduleBlock
  fri : List ScheduleBlock
  sat : List ScheduleBlock
  sun : List ScheduleBlock
deriving DecidableEq

/-- The day indexing `skill.schedule[dayKey]`. -/
def WeeklySchedule.day (ws : WeeklySchedule) : Weekday → List ScheduleBlock
  | .mon => ws.mon
  | .tue => ws.tue
  | .wed => ws.wed
  | .thu => ws.thu
  | .fri => ws.fri
  | .sat => ws.sat
  | .sun => ws.sun

/-- A trackable recurring practice goal. -/
structure Skill where
  id : String
  name : String
  priority : Option Priority
  dailyGoalMinutes : Option Int
  weeklyGoalMinutes : Option Int
  schedule : WeeklySchedule
  createdAtIso : String
  updatedAtIso : String
deriving DecidableEq

/-- One immutable record of time actually spent on a skill. Session
minutes are genuine integers: `addSession` refuses non-integers. -/
structure Session where
  id : String
  skillId : String
  minutes : Int
  startedAtIso : String
  createdAtIso : String
deriving DecidableEq

/-- The typed aggregate root of the current App.tsx era: skills,
sessions, and the opaque overrides. -/
structure AppPayload where
  skills : List Skill
  sessions : List Session
  overrides : List JsValue

/-! ## Completion engine (App.tsx) -/

/-- Whether a string matches the anchored pattern `^(\d{2}):(\d{2})$`. -/
def isHHMM (s : String) : Bool :=
  match s.toList with
  | [h1, h2, c, m1, m2] =>
      h1.isDigit && h2.isDigit && c == ':' && m1.isDigit && m2.isDigit
  | _ => false

/-- Numeric value of a decimal digit character. -/
def digitVal (c : Char) : Nat := c.toNat - 48

/-- Parse `"HH:MM"` into minutes since midnight; anything that does not
match two-digit `HH:MM` degrades to minute 0 (midnight). The
`Number.isFinite` re-check of the source is vacuous for matched digit
pairs. -/
def parseHHMMToMinutes (s : String) : Nat :=
  if isHHMM s then
    match s.toList with
    | h1 :: h2 :: _ :: m1 :: m2 :: _ =>
        (digitVal h1 * 10 + digitVal h2) * 60 + (digitVal m1 * 10 + digitVal m2)
    | _ => 0
  else 0

/-- Sum of planned minutes over the blocks whose start time has passed:
filter on `parseHHMMToMinutes(b.startTime) <= nowMin`, then fold with
`sum + (Number.isInteger(b.minutes) ? b.minutes : 0)`. -/
def expectedMinutesByNow (blocks : List ScheduleBlock) (nowMin : Nat) : Rat :=
  ratSum ((blocks.filter (fun b => decide (parseHHMMToMinutes b.startTime ≤ nowMin))).map
    (fun b => if b.minutes.isInt then b.minutes else 0))

/-- The derived tri-state completion status. -/
inductive CompletionStatus where
  | idle
  | onTrack
  | overdue
deriving DecidableEq

/-- One dashboard row: the skill with its derived quantities. -/
structure Row where
  skill : Skill
  todayMinutes : Int
  expectedByNow : Rat
  status : CompletionStatus

/-- The per-skill derivation of `Dashboard.rows` (the same conditional
chain appears in `SkillEditor.completion`): today's sessions are those of
the skill whose `startedAtIso` is at or after the start-of-today ISO
string, `todayMinutes` their sum, `expectedByNow` from the current
weekday's blocks, and the status `idle` when nothing was expected,
`onTrack` when logged minutes reach the expectation, else `overdue`. -/
def dashboardRow (sessions : List Session) (startIso : String)
    (dayKey : Weekday) (nowMin : Nat) (skill : Skill) : Row :=
  let todaySessions := sessions.filter
    (fun ss => ss.skillId == skill.id && strLe startIso ss.startedAtIso)
  let todayMinutes : Int := (todaySessions.map (fun ss => ss.minutes)).sum
  let expectedByNow : Rat := expectedMinutesByNow (skill.schedule.day dayKey) nowMin
  let status : CompletionStatus :=
    if expectedByNow = 0 then .idle
    else if ratOfInt todayMinutes ≥ expectedByNow then .onTrack
    else .overdue
  ⟨skill, todayMinutes, expectedByNow, status⟩

/-- The rank used by the dashboard sort: `skill.priority ?? 999`. -/
def prRank (p : Option Priority) : Nat :=
  match p with
  | some q => q.toNat
  | none => 999

/-- Boolean "sorts no later than" relation of the dashboard comparator
`(a, b) => pr(a) - pr(b) || a.name.localeCompare(b.name)` (locale
collation modelled as code-point order). -/
def rowLe (a b : Row) : Bool :=
  decide (prRank a.skill.priority < prRank b.skill.priority)
    || (prRank a.skill.priority == prRank b.skill.priority
        && !decide (b.skill.name < a.skill.name))

/-- The `sortedRows` view: rows sorted by ascending priority rank, ties
broken by name. -/
def sortedRows (rows : List Row) : List Row := rows.mergeSort rowLe

/-! ## Skill deletion (App.tsx) -/

/-- Delete a skill by id: keep every skill whose id differs; sessions and
overrides are not touched. -/
def deleteSkill (p : AppPayload) (skillId : String) : AppPayload :=
  { p with skills := p.skills.filter (fun s => s.id != skillId) }

/-! ## Session ledger (sessions.ts) -/

/-- A moment rendered in the viewer's local timezone: calendar date plus
time of day. -/
structure LocalDate where
  year : Nat
  month : Nat
  day : Nat
deriving DecidableEq

/-- A local calendar date together with a local time of day. -/
structure LocalInstant where
  date : LocalDate
  hour : Nat
  minute : Nat
deriving DecidableEq

/-- A session as seen by `minutesTodayForSkill`, its `startedAtIso`
already rendered into the viewer's local timezone. -/
structure SessionL where
  id : String
  skillId : String
  minutes : Int
  startedAt : LocalInstant
deriving DecidableEq

/-- Modelled from the spec: `startOfTodayLocal` of the missing time.ts —
midnight (00:00) of the current local calendar day. -/
def startOfTodayLocal (now : LocalInstant) : LocalInstant :=
  ⟨now.date, 0, 0⟩

/-- Modelled from the spec: `isSameLocalDay` of the missing time.ts —
true exactly when the two moments fall on the same local calendar day
(year/month/day in the viewer's timezone), not a UTC day boundary and
not a rolling 24-hour window. -/
def isSameLocalDay (a b : LocalInstant) : Bool :=
  a.date == b.date

/-- Sum of minutes of the sessions of a skill logged today: filter on
matching skill id and same local day as the start of today, then sum. -/
def minutesTodayForSkill (sessions : List SessionL) (skillId : String)
    (now : LocalInstant) : Int :=
  ((sessions.filter (fun s =>
      s.skillId == skillId && isSameLocalDay s.startedAt (startOfTodayLocal now))).map
    (fun s => s.minutes)).sum

/-! ## Demo data used by the concrete test points of the spec -/

/-- A weekly schedule whose Monday has the single block
`startTime:"06:00", minutes:30`. -/
def demoSchedule : WeeklySchedule :=
  ⟨[⟨"blk1", "06:00", 30⟩], [], [], [], [], [], []⟩

/-- A skill with one Monday block at 06:00 for 30 minutes. -/
def demoSkill : Skill :=
  ⟨"sk1", "Learn SQL", some .p2, some 30, some 180, demoSchedule,
    "2026-10-10T12:00:00.000Z", "2026-10-10T12:00:00.000Z"⟩

/-- A 30-minute session for the demo skill, logged during today. -/
def demoSession : Session :=
  ⟨"se1", "sk1", 30, "2026-10-11T07:00:00.000Z", "2026-10-11T07:00:00.000Z"⟩

/-- Start-of-today ISO string for the demo scenario. -/
def demoStartIso : String := "2026-10-11T00:00:00.000Z"

/-! ## Helper lemmas -/

theorem ratAdd_eq_add (a b : Rat) : ratAdd a b = a + b :=
  (Rat.add_def' a b).symm

theorem ratSum_eq_sum (l : List Rat) : ratSum l = l.sum := by
  induction l with
  | nil => rfl
  | cons x xs ih =>
      simp only [ratSum, List.foldr_cons, List.sum_cons]
      rw [← ih]
      exact ratAdd_eq_add x (ratSum xs)

/-- C1: for every list of schedule blocks (with well-formed integer
`minutes`, as the data model prescribes) and every current
minutes-since-midnight, `expectedMinutesByNow` equals the sum of
`minutes` over exactly those blocks whose `startTime`, interpreted as
minutes-since-midnight, is at most the current minutes-since-midnight
(future blocks contribute zero because they are filtered out), and the
result is invariant under any permutation of the block list. -/
theorem expectedMinutesByNow_sum_of_due_blocks
    (blocks blocks2 : List ScheduleBlock) (nowMin : Nat)
    (hint : ∀ b ∈ blocks, b.minutes.isInt = true)
    (hperm : blocks.Perm blocks2) :
    expectedMinutesByNow blocks nowMin
      = ((blocks.filter (fun b => decide (parseHHMMToMinutes b.startTime ≤ nowMin))).map
          (fun b => b.minutes)).sum
    ∧ expectedMinutesByNow blocks nowMin = expectedMinutesByNow blocks2 nowMin := by
  constructor
  · rw [expectedMinutesByNow, ratSum_eq_sum]
    congr 1
    apply List.map_congr_left
    intro b hb
    simp [hint b (List.mem_filter.mp hb).1]
  · rw [expectedMinutesByNow, expectedMinutesByNow, ratSum_eq_sum, ratSum_eq_sum]
    exact List.Perm.sum_eq (List.Perm.map _ (List.Perm.filter _ hperm))

/-- Witness for C1 at a concrete two-block schedule and its swap. -/
theorem expectedMinutesByNow_sum_of_due_blocks_witness :
    expectedMinutesByNow [⟨"b1", "06:00", 30⟩, ⟨"b2", "09:00", 45⟩] 420
      = ((([(⟨"b1", "06:00", 30⟩ : ScheduleBlock), ⟨"b2", "09:00", 45⟩]).filter
          (fun b => decide (parseHHMMToMinutes b.startTime ≤ 420))).map
            (fun b => b.minutes)).sum
    ∧ expectedMinutesByNow [⟨"b1", "06:00", 30⟩, ⟨"b2", "09:00", 45⟩] 420
      = expectedMinutesByNow [⟨"b2", "09:00", 45⟩, ⟨"b1", "06:00", 30⟩] 420 :=
  expectedMinutesByNow_sum_of_due_blocks
    [⟨"b1", "06:00", 30⟩, ⟨"b2", "09:00", 45⟩]
    [⟨"b2", "09:00", 45⟩, ⟨"b1", "06:00", 30⟩] 420
    (by decide) (by decide)

/-- C10: a block whose `minutes` is not an integer contributes exactly 0
to the expected total even when its start time has passed, while a
malformed `startTime` (anything not matching two-digit `HH:MM`) parses
to minute 0 and therefore always selects the block once the day has
started: with integer minutes such a block is always counted. -/
theorem expectedMinutesByNow_malformed_fields
    (b : ScheduleBlock) (blocks : List ScheduleBlock) (nowMin : Nat) :
    (b.minutes.isInt = false →
      expectedMinutesByNow (b :: blocks) nowMin = expectedMinutesByNow blocks nowMin)
    ∧ (isHHMM b.startTime = false →
        parseHHMMToMinutes b.startTime = 0
        ∧ (b.minutes.isInt = true →
            expectedMinutesByNow (b :: blocks) nowMin
              = b.minutes + expectedMinutesByNow blocks nowMin)) := by
  constructor
  · intro hni
    rw [expectedMinutesByNow, expectedMinutesByNow, ratSum_eq_sum, ratSum_eq_sum,
      List.filter_cons]
    by_cases hf : parseHHMMToMinutes b.startTime ≤ nowMin
    · simp [hf, hni]
    · simp [hf]
  · intro hm
    have hp : parseHHMMToMinutes b.startTime = 0 := by
      rw [parseHHMMToMinutes, hm]
      rfl
    refine ⟨hp, fun hi => ?_⟩
    rw [expectedMinutesByNow, expectedMinutesByNow, ratSum_eq_sum, ratSum_eq_sum,
      List.filter_cons]
    simp [hp, hi]

/-- Witness for C10: a past block with minutes 3/2 adds nothing, and a
block with start time `"6:00"` (not two-digit) and 25 minutes is counted
from midnight on. -/
theorem expectedMinutesByNow_malformed_fields_witness :
    expectedMinutesByNow [⟨"b1", "06:00", mkRat 3 2⟩] 420
      = expectedMinutesByNow [] 420
    ∧ (parseHHMMToMinutes "6:00" = 0
        ∧ ((⟨"b2", "6:00", 25⟩ : ScheduleBlock).minutes.isInt = true →
            expectedMinutesByNow [⟨"b2", "6:00", 25⟩] 0
              = (⟨"b2", "6:00", 25⟩ : ScheduleBlock).minutes + expectedMinutesByNow [] 0)) :=
  ⟨(expectedMinutesByNow_malformed_fields ⟨"b1", "06:00", mkRat 3 2⟩ [] 420).1 (by decide),
    ⟨((expectedMinutesByNow_malformed_fields ⟨"b2", "6:00", 25⟩ [] 0).2 (by decide)).1,
      fun _ => ((expectedMinutesByNow_malformed_fields ⟨"b2", "6:00", 25⟩ [] 0).2 (by decide)).2 (by decide)⟩⟩

/-- C2: for every schedule, session set and current time, the derived
status is exactly `idle` when `expectedByNow = 0` (regardless of logged
minutes), otherwise `onTrack` when `todayMinutes >= expectedByNow`,
otherwise `overdue`; and in the spec's concrete scenario (one block
`06:00`/30, weekday Monday) the status is `idle` with expectation 0 at
05:00, `overdue` with expectation 30 at 07:00, `onTrack` after logging a
30-minute session, and still `idle` at 05:00 even with that session. -/
theorem dashboard_status_tri_state :
    (∀ (sessions : List Session) (startIso : String) (dayKey : Weekday)
        (nowMin : Nat) (skill : Skill),
      ((dashboardRow sessions startIso dayKey nowMin skill).status = .idle
        ↔ (dashboardRow sessions startIso dayKey nowMin skill).expectedByNow = 0)
      ∧ ((dashboardRow sessions startIso dayKey nowMin skill).status = .onTrack
        ↔ (dashboardRow sessions startIso dayKey nowMin skill).expectedByNow ≠ 0
          ∧ ratOfInt (dashboardRow sessions startIso dayKey nowMin skill).todayMinutes
              ≥ (dashboardRow sessions startIso dayKey nowMin skill).expectedByNow)
      ∧ ((dashboardRow sessions startIso dayKey nowMin skill).status = .overdue
        ↔ (dashboardRow sessions startIso dayKey nowMin skill).expectedByNow ≠ 0
          ∧ ratOfInt (dashboardRow sessions startIso dayKey nowMin skill).todayMinutes
              < (dashboardRow sessions startIso dayKey nowMin skill).expectedByNow))
    ∧ ((dashboardRow [] demoStartIso .mon 300 demoSkill).status = .idle
        ∧ (dashboardRow [] demoStartIso .mon 300 demoSkill).expectedByNow = 0)
    ∧ ((dashboardRow [] demoStartIso .mon 420 demoSkill).status = .overdue
        ∧ (dashboardRow [] demoStartIso .mon 420 demoSkill).expectedByNow = 30)
    ∧ (dashboardRow [demoSession] demoStartIso .mon 420 demoSkill).status = .onTrack
    ∧ (dashboardRow [demoSession] demoStartIso .mon 300 demoSkill).status = .idle := by
  refine ⟨?_, by decide, by decide, by decide, by decide⟩
  intro sessions startIso dayKey nowMin skill
  simp only [dashboardRow]
  by_cases he : expectedMinutesByNow (skill.schedule.day dayKey) nowMin = 0
  · simp [he]
  · by_cases ht : ratOfInt ((sessions.filter
        (fun ss => ss.skillId == skill.id && strLe startIso ss.startedAtIso)).map
          (fun ss => ss.minutes)).sum ≥ expectedMinutesByNow (skill.schedule.day dayKey) nowMin
    · simp [he, ht, not_lt.mpr ht]
    · simp [he, ht, lt_of_not_ge ht]

/-- C7: `minutesTodayForSkill` counts a session exactly when its skill id
matches and its start moment falls on the same local calendar day as
now — independent of the time of day, so neither a UTC day boundary nor
a rolling 24-hour window; concretely, a 25-minute session at 23:59
yesterday is not counted while a 30-minute session at 00:01 today is,
even though less than 24 hours separate them. -/
theorem minutesTodayForSkill_local_day :
    (∀ (sessions : List SessionL) (skillId : String) (now : LocalInstant),
      minutesTodayForSkill sessions skillId now
        = ((sessions.filter (fun s =>
            s.skillId == skillId && s.startedAt.date == now.date)).map
              (fun s => s.minutes)).sum)
    ∧ (∀ (skillId : String) (now : LocalInstant) (s : SessionL),
        ((s.skillId == skillId
            && isSameLocalDay s.startedAt (startOfTodayLocal now)) = true)
          ↔ (s.skillId = skillId ∧ s.startedAt.date = now.date))
    ∧ minutesTodayForSkill
        [⟨"a", "sk", 25, ⟨⟨2026, 10, 10⟩, 23, 59⟩⟩,
          ⟨"b", "sk", 30, ⟨⟨2026, 10, 11⟩, 0, 1⟩⟩]
        "sk" ⟨⟨2026, 10, 11⟩, 0, 30⟩ = 30 := by
  refine ⟨fun sessions skillId now => rfl, ?_, by decide⟩
  intro skillId now s
  simp [isSameLocalDay, startOfTodayLocal]

/-- C9: deleting a skill removes exactly the skills carrying the deleted
id and nothing else: the sessions sequence (including sessions whose
`skillId` references the deleted skill) and the overrides sequence are
unchanged, and sessions remain enumerable by any stored skill id. -/
theorem deleteSkill_keeps_sessions (p : AppPayload) (skillId : String) :
    (deleteSkill p skillId).sessions = p.sessions
    ∧ (deleteSkill p skillId).overrides = p.overrides
    ∧ (∀ s : Skill, s ∈ (deleteSkill p skillId).skills
        ↔ (s ∈ p.skills ∧ s.id ≠ skillId))
    ∧ (∀ sid : String,
        (deleteSkill p skillId).sessions.filter (fun ss => ss.skillId == sid)
          = p.sessions.filter (fun ss => ss.skillId == sid)) := by
  refine ⟨rfl, rfl, ?_, fun sid => rfl⟩
  intro s
  simp [deleteSkill, List.mem_filter]

theorem rowLe_iff (a b : Row) :
    rowLe a b = true
      ↔ (prRank a.skill.priority < prRank b.skill.priority
          ∨ (prRank a.skill.priority = prRank b.skill.priority
              ∧ a.skill.name ≤ b.skill.name)) := by
  simp [rowLe, not_lt]

theorem rowLe_trans (a b c : Row) (hab : rowLe a b = true) (hbc : rowLe b c = true) :
    rowLe a c = true := by
  rw [rowLe_iff] at hab hbc ⊢
  rcases hab with h | ⟨he, hn⟩ <;> rcases hbc with h2 | ⟨he2, hn2⟩
  · exact Or.inl (lt_trans h h2)
  · exact Or.inl (he2 ▸ h)
  · exact Or.inl (he ▸ h2)
  · exact Or.inr ⟨he.trans he2, le_trans hn hn2⟩

theorem rowLe_total (a b : Row) : (rowLe a b || rowLe b a) = true := by
  rw [Bool.or_eq_true, rowLe_iff, rowLe_iff]
  rcases Nat.lt_trichotomy (prRank a.skill.priority) (prRank b.skill.priority) with h | h | h
  · exact Or.inl (Or.inl h)
  · rcases le_total a.skill.name b.skill.name with hn | hn
    · exact Or.inl (Or.inr ⟨h, hn⟩)
    · exact Or.inr (Or.inr ⟨h.symm, hn⟩)
  · exact Or.inr (Or.inl h)

/-- C8: the "all skills" view order is a sort of the rows whose primary
key is ascending priority rank — with an absent priority ranked 999,
strictly after every assigned rank, playing the role of rank plus
infinity — and whose secondary key is ascending name comparison; two
rows with equal priority are ordered by name. -/
theorem sortedRows_by_priority_then_name (rows : List Row) :
    (sortedRows rows).Perm rows
    ∧ (sortedRows rows).Pairwise (fun a b =>
        prRank a.skill.priority < prRank b.skill.priority
        ∨ (prRank a.skill.priority = prRank b.skill.priority
            ∧ a.skill.name ≤ b.skill.name))
    ∧ (∀ q : Priority, prRank (some q) < prRank none) := by
  refine ⟨List.mergeSort_perm rows rowLe, ?_, ?_⟩
  · have hs := @List.sorted_mergeSort Row rowLe rowLe_trans rowLe_total rows
    exact List.Pairwise.imp (fun hab => (rowLe_iff _ _).mp hab) hs
  · intro q
    cases q <;> decide

theorem all_digit_dropWhile_nil (raw : List Char) (h : raw.all Char.isDigit = true) :
    raw.dropWhile Char.isDigit = [] := by
  rw [List.dropWhile_eq_nil_iff]
  intro x hx
  exact List.all_eq_true.mp h x hx

theorem matchMin_eq_none_of_all_digits (raw : List Char)
    (h : raw.all Char.isDigit = true) : matchMin raw = none := by
  rw [matchMin, all_digit_dropWhile_nil raw h]
  split
  · rfl
  · rfl

theorem matchHr_eq_none_of_all_digits (raw : List Char)
    (h : raw.all Char.isDigit = true) : matchHr raw = none := by
  rw [matchHr, all_digit_dropWhile_nil raw h]
  split
  · rfl
  · rfl

theorem contains_dot_min (l : List Char) : minuteUnits.contains ('.' :: l) = false := by
  simp [minuteUnits]

theorem hour_unit_not_minute (u : List Char) (h : hourUnits.contains u = true) :
    minuteUnits.contains u = false := by
  have h2 : u ∈ hourUnits := List.elem_iff.mp h
  fin_cases h2 <;> rfl

theorem matchHr_imp_matchMin_none (raw : List Char) (hrs : Rat)
    (h : matchHr raw = some hrs) : matchMin raw = none := by
  simp only [matchHr] at h
  simp only [matchMin]
  split at h
  next hds => exact absurd h (by simp)
  next hds =>
    rw [if_neg hds]
    split at h
    next rest1 heq =>
      rw [heq, List.dropWhile_cons]
      have hdot : Char.isWhitespace '.' = false := rfl
      rw [hdot]
      simp only [Bool.false_eq_true, if_false]
      rw [contains_dot_min]
      simp
    next heq =>
      have hcont : hourUnits.contains
          ((raw.dropWhile Char.isDigit).dropWhile Char.isWhitespace) = true := by
        by_contra hc
        rw [Bool.not_eq_true] at hc
        rw [hc] at h
        exact absurd h (by simp)
      rw [hour_unit_not_minute _ hcont]
      simp

theorem parseDurCore_digits_rule (raw : List Char) (hne : raw ≠ [])
    (hd : raw.all Char.isDigit = true) :
    parseDurCore raw
      = if natOfDigits raw = 0 then .fail "Minutes must be > 0."
        else .ok (natOfDigits raw) := by
  have h1 : raw.isEmpty = false := by
    cases raw
    · exact absurd rfl hne
    · rfl
  simp only [parseDurCore, h1, hd]
  rfl

theorem parseDurCore_min_rule (raw : List Char) (n : Nat) (h : matchMin raw = some n) :
    parseDurCore raw
      = if n = 0 then .fail "Minutes must be > 0." else .ok n := by
  have h1 : raw.isEmpty = false := by
    cases raw with
    | nil => exact absurd h (by simp [matchMin])
    | cons a l => rfl
  have h2 : raw.all Char.isDigit = false := by
    cases hd : raw.all Char.isDigit
    · rfl
    · rw [matchMin_eq_none_of_all_digits raw hd] at h
      exact absurd h (by simp)
  simp only [parseDurCore, h1, h2, h]
  rfl

theorem parseDurCore_hr_rule (raw : List Char) (hrs : Rat) (h : matchHr raw = some hrs) :
    parseDurCore raw
      = if hrs ≤ 0 then .fail "Hours must be > 0."
        else if jsRound (ratMulInt hrs 60) ≤ 0 then .fail "Duration too small."
        else .ok (jsRound (ratMulInt hrs 60)).toNat := by
  have h1 : raw.isEmpty = false := by
    cases raw with
    | nil => exact absurd h (by simp [matchHr])
    | cons a l => rfl
  have h2 : raw.all Char.isDigit = false := by
    cases hd : raw.all Char.isDigit
    · rfl
    · rw [matchHr_eq_none_of_all_digits raw hd] at h
      exact absurd h (by simp)
  simp only [parseDurCore, h1, h2, matchHr_imp_matchMin_none raw hrs h, h]
  rfl

theorem parseDurCore_pos (raw : List Char) (m : Nat) (h : parseDurCore raw = .ok m) :
    0 < m := by
  simp only [parseDurCore] at h
  split at h
  · exact absurd h (by simp)
  · split at h
    · split at h
      · exact absurd h (by simp)
      · next hz =>
          cases h
          omega
    · split at h
      · split at h
        · exact absurd h (by simp)
        · next hz =>
            cases h
            omega
      · split at h
        · split at h
          · exact absurd h (by simp)
          · split at h
            · exact absurd h (by simp)
            · next hz =>
                cases h
                omega
        · exact absurd h (by simp)

/-- C3: `parseDurationToMinutes` trims and lowercases its input and then
applies its rules in the source's priority order: empty input fails with
"Duration is required."; a pure digit string is whole minutes with zero
rejected; an integer with a minute unit is that many minutes; a decimal
with an hour unit rounds hours times 60, rejecting non-positive hours
and a rounded result of at most 0; everything else (including decimals
with a minute unit) fails with the example-bearing message; and any
successful parse returns a positive integer. -/
theorem parseDurationToMinutes_rules :
    (∀ s : String, parseDurationToMinutes s
        = parseDurCore ((trimChars s.toList).map Char.toLower))
    ∧ parseDurationToMinutes "" = .fail "Duration is required."
    ∧ parseDurationToMinutes "   " = .fail "Duration is required."
    ∧ (∀ raw : List Char, raw ≠ [] → raw.all Char.isDigit = true →
        parseDurCore raw
          = if natOfDigits raw = 0 then .fail "Minutes must be > 0."
            else .ok (natOfDigits raw))
    ∧ parseDurationToMinutes "45" = .ok 45
    ∧ parseDurationToMinutes "0" = .fail "Minutes must be > 0."
    ∧ (∀ (raw : List Char) (n : Nat), matchMin raw = some n →
        parseDurCore raw = if n = 0 then .fail "Minutes must be > 0." else .ok n)
    ∧ parseDurationToMinutes "30min" = .ok 30
    ∧ (∀ (raw : List Char) (hrs : Rat), matchHr raw = some hrs →
        parseDurCore raw
          = if hrs ≤ 0 then .fail "Hours must be > 0."
            else if jsRound (ratMulInt hrs 60) ≤ 0 then .fail "Duration too small."
            else .ok (jsRound (ratMulInt hrs 60)).toNat)
    ∧ parseDurationToMinutes "1.5hr" = .ok 90
    ∧ parseDurationToMinutes "0hr" = .fail "Hours must be > 0."
    ∧ parseDurationToMinutes "0.001hr" = .fail "Duration too small."
    ∧ parseDurationToMinutes "30.5min"
        = .fail "Invalid duration. Examples: 30, 30min, 45m, 1hr, 0.5hr. Decimals allowed only for hours."
    ∧ (∀ (s : String) (m : Nat), parseDurationToMinutes s = .ok m → 0 < m) :=
  ⟨fun _ => rfl, by decide, by decide, parseDurCore_digits_rule, by decide, by decide,
    parseDurCore_min_rule, by decide, parseDurCore_hr_rule, by decide, by decide,
    by decide, by decide, fun _ m h => parseDurCore_pos _ m h⟩

/-- Witness for C3: the digit, minute-unit and hour-unit rules applied at
"45", "30m" and "1.5hr", and positivity applied at "45". -/
theorem parseDurationToMinutes_rules_witness :
    (parseDurCore ['4', '5']
      = if natOfDigits ['4', '5'] = 0 then .fail "Minutes must be > 0."
        else .ok (natOfDigits ['4', '5']))
    ∧ (parseDurCore ['3', '0', 'm']
      = if (30 : Nat) = 0 then .fail "Minutes must be > 0." else .ok 30)
    ∧ (parseDurCore ['1', '.', '5', 'h', 'r']
      = if ratOfDecimal ['1'] ['5'] ≤ 0 then .fail "Hours must be > 0."
        else if jsRound (ratMulInt (ratOfDecimal ['1'] ['5']) 60) ≤ 0 then
          .fail "Duration too small."
        else .ok (jsRound (ratMulInt (ratOfDecimal ['1'] ['5']) 60)).toNat)
    ∧ 0 < 45 :=
  ⟨parseDurationToMinutes_rules.2.2.2.1 ['4', '5'] (by decide) (by decide),
    parseDurationToMinutes_rules.2.2.2.2.2.2.1 ['3', '0', 'm'] 30 (by decide),
    parseDurationToMinutes_rules.2.2.2.2.2.2.2.2.1 ['1', '.', '5', 'h', 'r']
      (ratOfDecimal ['1'] ['5']) (by decide),
    parseDurationToMinutes_rules.2.2.2.2.2.2.2.2.2.2.2.2.2 "45" 45 (by decide)⟩

theorem forceArr_forceArr (v : JsValue) : forceArr (forceArr v) = forceArr v := by
  cases v <;> rfl

theorem isArr_forceArr (v : JsValue) : isArr (forceArr v) = true := by
  cases v <;> rfl

theorem digitChar_isDigit (d : Nat) (h : d < 10) : (digitChar d).isDigit = true := by
  interval_cases d <;> decide

theorem natChars_all_digit (n : Nat) : (natChars n).all Char.isDigit = true := by
  induction n using natChars.induct with
  | case1 n h =>
      rw [natChars]
      simp [h, digitChar_isDigit n h]
  | case2 n h ih =>
      rw [natChars]
      simp only [h, dite_false]
      rw [List.all_append]
      simp [ih, digitChar_isDigit (n % 10) (Nat.mod_lt n (by omega))]

theorem idxKey_not_payload_key (n : Nat) : payloadKeys.contains (idxKey n) = false := by
  by_contra hc
  rw [Bool.not_eq_false] at hc
  have hm : idxKey n ∈ payloadKeys := List.elem_iff.mp hc
  have hall := natChars_all_digit n
  simp only [payloadKeys, List.mem_cons, List.not_mem_nil, or_false] at hm
  rcases hm with h | h | h <;>
    (have h2 : natChars n = _ := congrArg String.toList h
     rw [h2] at hall
     exact absurd hall (by decide))

theorem filter_idxKeys_eq_self (elems : List JsValue) :
    (elems.enum.map (fun iv => (idxKey iv.1, iv.2))).filter
        (fun kv => !(payloadKeys.contains kv.1))
      = elems.enum.map (fun iv => (idxKey iv.1, iv.2)) := by
  rw [List.filter_eq_self]
  intro kv hkv
  obtain ⟨iv, _, rfl⟩ := List.mem_map.mp hkv
  rw [idxKey_not_payload_key iv.1]
  rfl

theorem filter_payload_idem (fields : List (String × JsValue)) :
    ((fields.filter (fun kv => !(payloadKeys.contains kv.1))).filter
        (fun kv => !(payloadKeys.contains kv.1)))
      = fields.filter (fun kv => !(payloadKeys.contains kv.1)) := by
  rw [List.filter_filter]
  apply List.filter_congr
  intro kv _
  rw [Bool.and_self]

theorem normalizePayload_obj_normal (a b c : JsValue)
    (rest : List (String × JsValue))
    (hrest : rest.filter (fun kv => !(payloadKeys.contains kv.1)) = rest) :
    normalizePayload
        (.obj (("skills", a) :: ("sessions", b) :: ("overrides", c) :: rest))
      = .obj (("skills", forceArr a) :: ("sessions", forceArr b)
          :: ("overrides", forceArr c) :: rest) := by
  have f0 : (("skills", a) :: ("sessions", b) :: ("overrides", c) :: rest).filter
      (fun kv => !(payloadKeys.contains kv.1))
        = rest.filter (fun kv => !(payloadKeys.contains kv.1)) := by
    rw [List.filter_cons, List.filter_cons, List.filter_cons]
    rw [show (("skills", a) : String × JsValue).1 = "skills" from rfl,
      show (("sessions", b) : String × JsValue).1 = "sessions" from rfl,
      show (("overrides", c) : String × JsValue).1 = "overrides" from rfl]
    rw [if_neg (by decide), if_neg (by decide), if_neg (by decide)]
  rw [normalizePayload]
  rw [show jsLookup (("skills", a) :: ("sessions", b) :: ("overrides", c) :: rest)
      "skills" = a from rfl]
  rw [show jsLookup (("skills", a) :: ("sessions", b) :: ("overrides", c) :: rest)
      "sessions" = b from rfl]
  rw [show jsLookup (("skills", a) :: ("sessions", b) :: ("overrides", c) :: rest)
      "overrides" = c from rfl]
  rw [f0, hrest]

theorem normalizePayload_idem (p : JsValue) :
    normalizePayload (normalizePayload p) = normalizePayload p := by
  cases p with
  | undefined => rfl
  | null => rfl
  | bool b => rfl
  | num n => rfl
  | str s => rfl
  | arr elems =>
      show normalizePayload (.obj _) = _
      rw [normalizePayload_obj_normal _ _ _ _ (filter_idxKeys_eq_self elems)]
      rfl
  | obj fields =>
      show normalizePayload (.obj _) = _
      rw [normalizePayload_obj_normal _ _ _ _ (filter_payload_idem fields)]
      rw [forceArr_forceArr, forceArr_forceArr, forceArr_forceArr]
      rfl

theorem jsLookup_filter_payload (fields : List (String × JsValue)) (k : String)
    (hk : payloadKeys.contains k = false) :
    jsLookup (fields.filter (fun kv => !(payloadKeys.contains kv.1))) k
      = jsLookup fields k := by
  induction fields with
  | nil => rfl
  | cons kv rest ih =>
      obtain ⟨k1, v1⟩ := kv
      rw [List.filter_cons]
      by_cases hc : payloadKeys.contains k1 = true
      · have hne : (k == k1) = false := by
          rw [beq_eq_false_iff_ne]
          intro he
          rw [he, hc] at hk
          exact absurd hk (by decide)
        have hcond : (!(payloadKeys.contains ((k1, v1) : String × JsValue).1)) = false := by
          rw [show ((k1, v1) : String × JsValue).1 = k1 from rfl, hc]
          rfl
        rw [if_neg (by rw [hcond]; decide)]
        have hstep : jsLookup ((k1, v1) :: rest) k = jsLookup rest k := by
          simp only [jsLookup, List.lookup, hne]
        rw [hstep, ih]
      · have hcf : payloadKeys.contains k1 = false := by
          cases hx : payloadKeys.contains k1
          · rfl
          · exact absurd hx hc
        have hcond : (!(payloadKeys.contains ((k1, v1) : String × JsValue).1)) = true := by
          rw [show ((k1, v1) : String × JsValue).1 = k1 from rfl, hcf]
          rfl
        rw [if_pos hcond]
        cases hkk : k == k1
        · have h1 : jsLookup
              ((k1, v1) :: rest.filter (fun kv => !(payloadKeys.contains kv.1))) k
              = jsLookup (rest.filter (fun kv => !(payloadKeys.contains kv.1))) k := by
            simp only [jsLookup, List.lookup, hkk]
          have h2 : jsLookup ((k1, v1) :: rest) k = jsLookup rest k := by
            simp only [jsLookup, List.lookup, hkk]
          rw [h1, h2, ih]
        · have h1 : jsLookup
              ((k1, v1) :: rest.filter (fun kv => !(payloadKeys.contains kv.1))) k
              = v1 := by
            simp only [jsLookup, List.lookup, hkk]
          have h2 : jsLookup ((k1, v1) :: rest) k = v1 := by
            simp only [jsLookup, List.lookup, hkk]
          rw [h1, h2]

theorem getField_normalize_extra (fields : List (String × JsValue)) (k : String)
    (hk : payloadKeys.contains k = false) :
    getField (normalizePayload (.obj fields)) k = getField (.obj fields) k := by
  have hk1 : (k == "skills") = false := by
    rw [beq_eq_false_iff_ne]
    intro he
    rw [he] at hk
    exact absurd hk (by decide)
  have hk2 : (k == "sessions") = false := by
    rw [beq_eq_false_iff_ne]
    intro he
    rw [he] at hk
    exact absurd hk (by decide)
  have hk3 : (k == "overrides") = false := by
    rw [beq_eq_false_iff_ne]
    intro he
    rw [he] at hk
    exact absurd hk (by decide)
  show jsLookup _ k = jsLookup fields k
  have hstep : ∀ (v : JsValue) (rest : List (String × JsValue)) (key : String),
      (k == key) = false →
      jsLookup ((key, v) :: rest) k = jsLookup rest k := by
    intro v rest key hne
    simp only [jsLookup, List.lookup, hne]
  rw [hstep _ _ _ hk1, hstep _ _ _ hk2, hstep _ _ _ hk3]
  exact jsLookup_filter_payload fields k hk

theorem isArr_normalize_key (p : JsValue) :
    isArr (getField (normalizePayload p) "skills") = true
    ∧ isArr (getField (normalizePayload p) "sessions") = true
    ∧ isArr (getField (normalizePayload p) "overrides") = true := by
  cases p with
  | obj fields =>
      exact ⟨isArr_forceArr _, isArr_forceArr _, isArr_forceArr _⟩
  | arr elems => exact ⟨rfl, rfl, rfl⟩
  | undefined => exact ⟨rfl, rfl, rfl⟩
  | null => exact ⟨rfl, rfl, rfl⟩
  | bool b => exact ⟨rfl, rfl, rfl⟩
  | num n => exact ⟨rfl, rfl, rfl⟩
  | str s => exact ⟨rfl, rfl, rfl⟩

/-- C6: `normalizePayload` is idempotent; on every input it forces each
of `skills`, `sessions`, `overrides` to a sequence, replacing any
non-sequence value by the empty sequence instead of rejecting; and on an
object it starts from the default payload and shallow-overlays the
supplied fields, preserving every other field unchanged. -/
theorem normalizePayload_idempotent_forces_sequences (p : JsValue) :
    normalizePayload (normalizePayload p) = normalizePayload p
    ∧ isArr (getField (normalizePayload p) "skills") = true
    ∧ isArr (getField (normalizePayload p) "sessions") = true
    ∧ isArr (getField (normalizePayload p) "overrides") = true
    ∧ (∀ fields, p = .obj fields →
        getField (normalizePayload p) "skills" = forceArr (getField p "skills")
        ∧ getField (normalizePayload p) "sessions" = forceArr (getField p "sessions")
        ∧ getField (normalizePayload p) "overrides" = forceArr (getField p "overrides")
        ∧ (∀ k, payloadKeys.contains k = false →
            getField (normalizePayload p) k = getField p k)) := by
  refine ⟨normalizePayload_idem p, (isArr_normalize_key p).1,
    (isArr_normalize_key p).2.1, (isArr_normalize_key p).2.2, ?_⟩
  rintro fields rfl
  exact ⟨rfl, rfl, rfl, fun k hk => getField_normalize_extra fields k hk⟩

/-- Witness for C6 at a payload with a non-sequence `skills` and an
extra field. -/
theorem normalizePayload_idempotent_forces_sequences_witness :
    (normalizePayload (normalizePayload (.obj [("skills", .num 7), ("extra", .str "x")]))
      = normalizePayload (.obj [("skills", .num 7), ("extra", .str "x")]))
    ∧ getField (normalizePayload (.obj [("skills", .num 7), ("extra", .str "x")])) "skills"
        = forceArr (getField (.obj [("skills", .num 7), ("extra", .str "x")]) "skills")
    ∧ getField (normalizePayload (.obj [("skills", .num 7), ("extra", .str "x")])) "extra"
        = getField (.obj [("skills", .num 7), ("extra", .str "x")]) "extra" :=
  ⟨(normalizePayload_idempotent_forces_sequences _).1,
    ((normalizePayload_idempotent_forces_sequences _).2.2.2.2 _ rfl).1,
    ((normalizePayload_idempotent_forces_sequences
        (.obj [("skills", .num 7), ("extra", .str "x")])).2.2.2.2 _ rfl).2.2.2
      "extra" (by decide)⟩

/-- C5: `loadAppData` always returns a well-formed snapshot (version 1,
payload a fixed point of normalization), and falls back to the fresh
default snapshot — version 1, current timestamp, default empty payload —
when the stored value is absent, unparsable, or fails the validity check
(wrong version or missing/non-string timestamp); on a valid document the
payload is normalized. -/
theorem loadAppData_silent_repair (now : String) (raw : Option (Option JsValue)) :
    ((loadAppData now raw).version = 1
      ∧ normalizePayload (loadAppData now raw).payload = (loadAppData now raw).payload)
    ∧ (raw = none → loadAppData now raw = ⟨1, now, defaultPayloadJs⟩)
    ∧ (raw = some none → loadAppData now raw = ⟨1, now, defaultPayloadJs⟩)
    ∧ (∀ v, raw = some (some v) → isValidSnapshotDoc v = false →
        loadAppData now raw = ⟨1, now, defaultPayloadJs⟩)
    ∧ (∀ v, raw = some (some v) → isValidSnapshotDoc v = true →
        (loadAppData now raw).payload = normalizePayload (getField v "payload")) := by
  refine ⟨⟨?_, ?_⟩, fun h => by subst h; rfl, fun h => by subst h; rfl, ?_, ?_⟩
  · rcases raw with _ | r
    · rfl
    rcases r with _ | v
    · rfl
    by_cases hv : isValidSnapshotDoc v = true
    · simp [loadAppData, hv]
    · simp [loadAppData, hv]
  · rcases raw with _ | r
    · rfl
    rcases r with _ | v
    · rfl
    by_cases hv : isValidSnapshotDoc v = true
    · simp [loadAppData, hv, normalizePayload_idem]
    · simp only [loadAppData, hv, Bool.false_eq_true, if_false]
      rfl
  · rintro v rfl hb
    simp [loadAppData, hb]
  · rintro v rfl hb
    simp [loadAppData, hb]

/-- Witness for C5: a wrong-version document, an absent slot, and a
valid document. -/
theorem loadAppData_silent_repair_witness :
    loadAppData "T0" (some (some (.obj [("version", .num 2)])))
      = ⟨1, "T0", defaultPayloadJs⟩
    ∧ loadAppData "T0" none = ⟨1, "T0", defaultPayloadJs⟩
    ∧ (loadAppData "T0"
        (some (some (.obj [("version", .num 1), ("updatedAtIso", .str "T1")])))).payload
      = normalizePayload
          (getField (.obj [("version", .num 1), ("updatedAtIso", .str "T1")]) "payload") :=
  ⟨(loadAppData_silent_repair "T0" _).2.2.2.1 _ rfl (by decide),
    (loadAppData_silent_repair "T0" none).2.1 rfl,
    (loadAppData_silent_repair "T0" _).2.2.2.2 _ rfl (by decide)⟩

/-- Counterexample to C4 as stated: a version-1 document whose
`updatedAtIso` is a string but not a recognizable time string is
accepted by `importBackup`, so a timestamp that is not a recognizable
time string does not force the documented failure. -/
theorem importBackup_accepts_unrecognizable_time :
    isRecognizableTimeString "definitely-not-a-time" = false
    ∧ importBackup "2026-01-01T00:00:00.000Z"
        (.obj [("version", .num 1), ("updatedAtIso", .str "definitely-not-a-time"),
          ("payload", .obj [])])
      = .ok ⟨1, "definitely-not-a-time", defaultPayloadJs⟩ :=
  ⟨by decide, rfl⟩

/-- C4 (amended): `importBackup` fails with exactly the error
"Invalid backup file format (expected version 1)." precisely when the
validity check fails — the document is falsy, its `version` is not
strictly the number 1, or its timestamp field is not a string; in
particular a `version: 2` document fails with that message; on failure
the import handler performs no state change, leaving the caller's
current snapshot unchanged; and on success the returned snapshot's
payload is normalized exactly as Load/Save normalize. -/
theorem importBackup_spec (now : String) (doc : JsValue) (app : AppData) :
    (importBackup now doc = .error "Invalid backup file format (expected version 1)."
      ↔ isValidSnapshotDoc doc = false)
    ∧ (getField doc "version" = .num 2 →
        importBackup now doc = .error "Invalid backup file format (expected version 1).")
    ∧ (∀ msg, importBackup now doc = .error msg →
        onPickImportFile app now doc = (app, some msg))
    ∧ (∀ d, importBackup now doc = .ok d →
        d.version = 1 ∧ d.payload = normalizePayload (getField doc "payload")) := by
  refine ⟨?_, ?_, ?_, ?_⟩
  · by_cases hv : isValidSnapshotDoc doc = true
    · simp [importBackup, hv]
    · simp [importBackup, hv]
  · intro h2
    have hvo : isVersionOne (getField doc "version") = false := by
      rw [h2]
      decide
    have hv : isValidSnapshotDoc doc = false := by
      rw [isValidSnapshotDoc, hvo]
      simp
    simp [importBackup, hv]
  · intro msg h
    simp [onPickImportFile, h]
  · intro d h
    by_cases hv : isValidSnapshotDoc doc = true
    · simp [importBackup, hv] at h
      rw [← h]
      exact ⟨rfl, rfl⟩
    · simp [importBackup, hv] at h

/-- Witness for C4 (amended): a `version: 2` document fails with the
documented message and the handler leaves the snapshot unchanged, and a
valid document yields a version-1 snapshot with normalized payload. -/
theorem importBackup_spec_witness :
    importBackup "T0"
        (.obj [("version", .num 2), ("updatedAtIso", .str "2026-01-01T00:00:00.000Z")])
      = .error "Invalid backup file format (expected version 1)."
    ∧ onPickImportFile ⟨1, "OLD", defaultPayloadJs⟩ "T0"
        (.obj [("version", .num 2), ("updatedAtIso", .str "2026-01-01T00:00:00.000Z")])
      = (⟨1, "OLD", defaultPayloadJs⟩,
          some "Invalid backup file format (expected version 1).")
    ∧ ((⟨1, "T1", defaultPayloadJs⟩ : AppData).version = 1
        ∧ (⟨1, "T1", defaultPayloadJs⟩ : AppData).payload
            = normalizePayload
                (getField (.obj [("version", .num 1), ("updatedAtIso", .str "T1")])
                  "payload")) :=
  ⟨(importBackup_spec "T0"
      (.obj [("version", .num 2), ("updatedAtIso", .str "2026-01-01T00:00:00.000Z")])
      ⟨1, "OLD", defaultPayloadJs⟩).2.1 rfl,
    (importBackup_spec "T0"
      (.obj [("version", .num 2), ("updatedAtIso", .str "2026-01-01T00:00:00.000Z")])
      ⟨1, "OLD", defaultPayloadJs⟩).2.2.1 _
      ((importBackup_spec "T0"
        (.obj [("version", .num 2), ("updatedAtIso", .str "2026-01-01T00:00:00.000Z")])
        ⟨1, "OLD", defaultPayloadJs⟩).2.1 rfl),
    (importBackup_spec "T0"
      (.obj [("version", .num 1), ("updatedAtIso", .str "T1")])
      ⟨1, "OLD", defaultPayloadJs⟩).2.2.2 ⟨1, "T1", defaultPayloadJs⟩ rfl⟩
